import Mathlib

/-!
# Verification of `examples/python/example_frontend/visualization/drawing.py`

Shallow embedding of the quadric/box wireframe rendering code of
quadricslam's example frontend, and proofs about it.

Modelling conventions:
* Real-valued (`ℝ`) exact arithmetic stands in for `float64`; the one
  float phenomenon the drawing code reacts to — infinite/NaN pixel
  coordinates produced by a perspective divide with a zero third
  homogeneous coordinate — is modelled by `Option`: a projected 2-D
  point is `some (x, y)` when finite and `none` when the divide is by
  zero (numpy yields `inf`/`nan` there, both non-finite).
* gtsam objects (`Pose3`, `Rot3`, `Cal3_S2`) are modelled by their
  documented semantics: a pose is a rotation matrix plus a translation,
  `a.between b = a⁻¹ * b`, and a calibration is the five pinhole
  intrinsics with upper-triangular matrix `K`.
* The image buffer mutated by cv2 is modelled as a pixel map; `cv2.line`
  is an opaque rasterizer parameter, `cv2.addWeighted` follows its
  documented per-pixel formula, and where only the *sequence of drawing
  calls* matters the embedding exposes that sequence as a trace list.
-/

open Matrix Real

/-- A 3-D point / vector (numpy length-3 array). -/
abbrev Vec3 := Fin 3 → ℝ

/-- A 3×3 real matrix (numpy `(3,3)` array). -/
abbrev Mat3 := Matrix (Fin 3) (Fin 3) ℝ

/-- A finite-or-not float value: `some x` is a finite float (idealised as
the exact real `x`), `none` is `inf`/`-inf`/`nan`. -/
abbrev FloatVal (α : Type) := Option α

/-- gtsam `Pose3`, modelled as rotation matrix plus translation vector. -/
structure Pose3 where
  rot : Mat3
  t : Vec3

/-- gtsam `Pose3.between`: `x.between y = x.inverse() * y`, whose rotation is
`xᵀR_y` and whose translation is `R_xᵀ (t_y − t_x)` (rotations are orthogonal,
so the inverse rotation is the transpose). -/
noncomputable def Pose3.between (x y : Pose3) : Pose3 :=
  ⟨x.rot.transpose * y.rot, x.rot.transpose.mulVec (y.t - x.t)⟩

/-- quadricslam `ConstrainedDualQuadric`: a centre pose plus three radii,
as consumed by `generate_uv_spherical` via `.pose()` and `.radii()`. -/
structure ConstrainedDualQuadric where
  pose : Pose3
  radii : Vec3

/-- gtsam `Cal3_S2`: pinhole intrinsics (fx, fy, skew, principal point). -/
structure Cal3_S2 where
  fx : ℝ
  fy : ℝ
  s : ℝ
  u0 : ℝ
  v0 : ℝ

/-- The calibration matrix `K` of a `Cal3_S2`. -/
def Cal3_S2.K (c : Cal3_S2) : Mat3 :=
  !![c.fx, c.s, c.u0; 0, c.fy, c.v0; 0, 0, 1]

/-- quadricslam `AlignedBox3`: an axis-aligned 3-D box given by six bounds. -/
structure AlignedBox3 where
  xmin : ℝ
  xmax : ℝ
  ymin : ℝ
  ymax : ℝ
  zmin : ℝ
  zmax : ℝ

/-- `AlignedBox3.vector()`: the bounds as `(xmin, xmax, ymin, ymax, zmin, zmax)`. -/
def AlignedBox3.vector (b : AlignedBox3) : Fin 6 → ℝ :=
  ![b.xmin, b.xmax, b.ymin, b.ymax, b.zmin, b.zmax]

/-- Modelled from the spec: `quadricslam.QuadricCamera.transformToImage` is C++
code of this repository that is not among the staged sources.  Per spec §4.3 it
builds the 3×4 world-to-image projection matrix `P = K · [R|t]⁻¹` from the
camera pose and the calibration; applied to a homogenised world point `[w; 1]`
this is `K · (Rᵀ (w − t))`, which is how we model the matrix (by its action on
homogenised points). -/
noncomputable def transformToImage (pose : Pose3) (calibration : Cal3_S2) (w : Vec3) : Vec3 :=
  calibration.K.mulVec (pose.rot.transpose.mulVec (w - pose.t))

open Classical in
/-- The perspective divide `point_2D[:-1] / point_2D[-1]` applied to a
projected homogeneous point: finite pixel coordinates unless the third
coordinate is zero, in which case numpy produces `inf`/`nan` (`none`). -/
noncomputable def perspectiveDivide (h : Vec3) : FloatVal (ℝ × ℝ) :=
  if h 2 = 0 then none else some (h 0 / h 2, h 1 / h 2)

/-- Projecting one world point to the image: multiply the homogenised point
by the projection matrix, then perspective-divide. -/
noncomputable def projectPoint (pose : Pose3) (calibration : Cal3_S2) (w : Vec3) :
    FloatVal (ℝ × ℝ) :=
  perspectiveDivide (transformToImage pose calibration w)

open Classical in
/-- `np.linspace a b n`: `n` evenly spaced values from `a` to `b` inclusive;
entry `i` is `a + (b − a) · i / (n − 1)` for `n ≥ 2` (numpy returns the
single value `a` when `n = 1`). -/
noncomputable def linspace (a b : ℝ) (n : ℕ) (i : ℕ) : ℝ :=
  if n ≤ 1 then a else a + (b - a) * i / (n - 1 : ℕ)

/-- The `(i, j)` entry of the local-frame sample grid of
`generate_uv_spherical`: spherical angles `u i ∈ [0, 2π]`, `v j ∈ [0, π]`
and Cartesian coordinates `(rx·cos u·sin v, ry·sin u·sin v, rz·1·cos v)`
(the code's `x`, `y`, `z` arrays, `z` built with `np.outer(ones_like u, cos v)`). -/
noncomputable def samplePoint (quadric : ConstrainedDualQuadric)
    (theta_points phi_points : ℕ) (i j : ℕ) : Vec3 :=
  let u := linspace 0 (2 * π) theta_points i
  let v := linspace 0 π phi_points j
  ![quadric.radii 0 * (Real.cos u * Real.sin v),
    quadric.radii 1 * (Real.sin u * Real.sin v),
    quadric.radii 2 * (1 * Real.cos v)]

/-- The sample grid itself: `theta_points` rows of `phi_points` entries
(`np.outer` of a length-`theta_points` and a length-`phi_points` array has
shape `(theta_points, phi_points)`). -/
noncomputable def sampleGrid (quadric : ConstrainedDualQuadric)
    (theta_points phi_points : ℕ) : List (List Vec3) :=
  (List.range theta_points).map fun i =>
    (List.range phi_points).map fun j => samplePoint quadric theta_points phi_points i j

/-- The world warp of one sample point:
`warped_point = point.dot(np.linalg.inv(rotation)); warped_point += translation`.
`point.dot M` on a 1-D `point` is the row-vector–matrix product `Matrix.vecMul`. -/
noncomputable def warpPoint (quadric : ConstrainedDualQuadric) (point : Vec3) : Vec3 :=
  Matrix.vecMul point (quadric.pose.rot)⁻¹ + quadric.pose.t

/-- `generate_uv_spherical`: the `(i, j)` entry of the returned `points_2D`
array — sample in the quadric's local frame, warp to world coordinates,
project to the image. -/
noncomputable def generate_uv_spherical (quadric : ConstrainedDualQuadric) (pose : Pose3)
    (calibration : Cal3_S2) (theta_points phi_points : ℕ) (i j : ℕ) : FloatVal (ℝ × ℝ) :=
  projectPoint pose calibration (warpPoint quadric (samplePoint quadric theta_points phi_points i j))

/-! ## The cv2 drawing layer -/

open Classical in
/-- `np.round`: round half to even (numpy banker's rounding), as an integer. -/
noncomputable def npRound (x : ℝ) : ℤ :=
  if Int.fract x < 1 / 2 ∨ (Int.fract x = 1 / 2 ∧ Even ⌊x⌋) then ⌊x⌋ else ⌊x⌋ + 1

open Classical in
/-- `.astype(int)` on a finite float: C-style truncation toward zero. -/
noncomputable def truncInt (x : ℝ) : ℤ :=
  if 0 ≤ x then ⌊x⌋ else ⌈x⌉

/-- `np.round(·).astype(int)` on one projected grid entry: round both pixel
coordinates to the nearest integer; on a non-finite value the cast result is
unspecified garbage, kept as `none`. -/
noncomputable def roundCast : FloatVal (ℝ × ℝ) → Option (ℤ × ℤ)
  | some xy => some (npRound xy.1, npRound xy.2)
  | none => none

/-- `tuple(point.astype(int))` on one projected box corner (truncation,
not rounding); `none` again stands for the unspecified cast of `inf`/`nan`. -/
noncomputable def truncCast : FloatVal (ℝ × ℝ) → Option (ℤ × ℤ)
  | some xy => some (truncInt xy.1, truncInt xy.2)
  | none => none

/-- The endpoint pairs passed to `cv2.line` by the first loop of
`CV2Drawing.quadric`: for each `i < m` and `j < n − 1`, the segment from
grid entry `(i, j)` to `(i, j+1)`. -/
def quadricLoop1 {α : Type} (m n : ℕ) (g : ℕ → ℕ → α) : List (α × α) :=
  (List.range m).flatMap fun i => (List.range (n - 1)).map fun j => (g i j, g i (j + 1))

/-- The endpoint pairs passed to `cv2.line` by the second loop of
`CV2Drawing.quadric`: for each `j < n` and `i < m − 1`, the segment from
grid entry `(i, j)` to `(i+1, j)`. -/
def quadricLoop2 {α : Type} (m n : ℕ) (g : ℕ → ℕ → α) : List (α × α) :=
  (List.range n).flatMap fun j => (List.range (m - 1)).map fun i => (g i j, g (i + 1) j)

/-- All segments drawn by `CV2Drawing.quadric` on an `m × n` grid, in call
order: the along-`j` loop, then the along-`i` loop. -/
def quadricSegments {α : Type} (m n : ℕ) (g : ℕ → ℕ → α) : List (α × α) :=
  quadricLoop1 m n g ++ quadricLoop2 m n g

/-- The `cv2.line` call trace of `CV2Drawing.quadric`: the projected grid is
`generate_uv_spherical(quadric, pose, calibration, 10, 10)`, rounded and cast
to integers, and both nested loops run over the full `10 × 10` grid. -/
noncomputable def quadricTrace (quadric : ConstrainedDualQuadric) (pose : Pose3)
    (calibration : Cal3_S2) : List (Option (ℤ × ℤ) × Option (ℤ × ℤ)) :=
  quadricSegments 10 10 fun i j =>
    roundCast (generate_uv_spherical quadric pose calibration 10 10 i j)

/-- An image buffer: pixel position to intensity (idealised single channel). -/
abbrev Img := ℤ × ℤ → ℝ

/-- An rgb colour triple. -/
abbrev Color := ℝ × ℝ × ℝ

/-- A rasterizer: what `cv2.line` does to the buffer, given the two (possibly
garbage, `none`) integer endpoints and the colour.  Its pixel-level behaviour
is external to this file, so the embedding is parametric in it. -/
abbrev LineRaster := Img → Option (ℤ × ℤ) → Option (ℤ × ℤ) → Color → Img

/-- `cv2.addWeighted src1 alpha src2 beta gamma`: the documented per-pixel
blend `dst = src1·alpha + src2·beta + gamma` (idealised, no `uint8`
saturation). -/
def addWeighted (src1 : Img) (alpha : ℝ) (src2 : Img) (beta gamma : ℝ) : Img :=
  fun p => src1 p * alpha + src2 p * beta + gamma

open Classical in
/-- `CV2Drawing.quadric`: project the quadric to a `10 × 10` pixel grid, swap
the colour rgb→bgr, issue every `cv2.line` call of the two loops into the
buffer, and — only when `alpha ≠ 1` — blend the drawn buffer with a copy of
the original taken before drawing.  Returns the final buffer. -/
noncomputable def CV2Drawing.quadric (lineF : LineRaster) (image : Img) (pose : Pose3)
    (quadric : ConstrainedDualQuadric) (calibration : Cal3_S2) (color : Color)
    (alpha : ℝ) : Img :=
  let bgr : Color := (color.2.2, color.2.1, color.1)
  let drawn := (quadricTrace quadric pose calibration).foldl
    (fun im s => lineF im s.1 s.2 bgr) image
  if alpha ≠ 1 then addWeighted drawn alpha image (1 - alpha) 0 else drawn

/-- One drawing call of `CV2Drawing.bounds_3D`: a `cv2.circle` at a point or a
`cv2.line` between two points (integer pixel coordinates, `none` for the
unspecified cast of a non-finite float). -/
inductive DrawCmd : Type
  | circle : Option (ℤ × ℤ) → DrawCmd
  | line : Option (ℤ × ℤ) → Option (ℤ × ℤ) → DrawCmd
deriving DecidableEq

/-- Whether a drawing call is a `cv2.line` call. -/
def DrawCmd.isLine : DrawCmd → Bool
  | .line _ _ => true
  | .circle _ => false

/-- The corner list of `bounds_3D`:
`[[x,y,z] for x in b[0:2] for y in b[2:4] for z in b[4:6]]` — x-major, then
y, then z. -/
def boxCorners (box3D : AlignedBox3) : List Vec3 :=
  [box3D.xmin, box3D.xmax].flatMap fun x =>
    [box3D.ymin, box3D.ymax].flatMap fun y =>
      [box3D.zmin, box3D.zmax].map fun z => ![x, y, z]

/-- The fixed corner-index pairs of the 12 box edges drawn by `bounds_3D`. -/
def boxEdgeIndices : List (ℕ × ℕ) :=
  [(0, 1), (1, 3), (3, 2), (2, 0), (4, 5), (5, 7), (7, 6), (6, 4),
   (2, 6), (1, 5), (0, 4), (3, 7)]

open Classical in
/-- `CV2Drawing.bounds_3D`, as its trace of cv2 drawing calls: enumerate the
8 corners; return (drawing nothing) if any corner has strictly negative
camera-frame depth `pose.between(Pose3(Rot3(), Point3(point))).translation()[2]`;
project all corners and perspective-divide; return (drawing nothing) if any
projected coordinate is `inf`/`nan`; otherwise draw a circle at every corner
and the 12 edges of the fixed index table. -/
noncomputable def CV2Drawing.bounds_3D (box3D : AlignedBox3) (pose : Pose3)
    (calibration : Cal3_S2) : List DrawCmd :=
  let points_3D := boxCorners box3D
  if ∃ p ∈ points_3D, (Pose3.between pose ⟨1, p⟩).t 2 < 0 then [] else
  let points_2D := points_3D.map (projectPoint pose calibration)
  if ∃ q ∈ points_2D, q = none then [] else
  points_2D.map (fun q => DrawCmd.circle (truncCast q)) ++
    boxEdgeIndices.map fun e =>
      DrawCmd.line (truncCast (points_2D.getD e.1 none)) (truncCast (points_2D.getD e.2 none))

/-! ## Concrete instances (used by witnesses and counterexamples) -/

/-- A concrete 90° rotation about the z axis (orthogonal, not symmetric). -/
noncomputable def Rz90 : Mat3 := !![0, -1, 0; 1, 0, 0; 0, 0, 1]

/-- The identity camera/object pose: identity rotation, zero translation. -/
noncomputable def poseId : Pose3 := ⟨1, 0⟩

/-- A unit sphere quadric at the world origin. -/
noncomputable def quadricUnit : ConstrainedDualQuadric := ⟨poseId, ![1, 1, 1]⟩

/-- A unit calibration: `fx = fy = 1`, no skew, principal point at the origin
(its `K` is the identity matrix). -/
noncomputable def calUnit : Cal3_S2 := ⟨1, 1, 0, 0, 0⟩

/-- A camera placed at distance `cos (π/9)` along the z axis: the world point
sampled by the `10 × 10` grid at `(i, j) = (0, 1)` on the unit sphere then has
camera-frame depth exactly zero, making its perspective divide degenerate. -/
noncomputable def camC1 : Pose3 := ⟨1, ![0, 0, Real.cos (π / 9)]⟩

/-- A concrete rasterizer that bumps every pixel by one per `cv2.line` call:
it witnesses that issued draw calls change the buffer. -/
noncomputable def bumpLine : LineRaster := fun im _ _ _ p => im p + 1

/-- The all-zero image buffer. -/
noncomputable def zeroImg : Img := fun _ => 0

/-! ## Helper lemmas -/

/-- The third row of any calibration matrix `K` is `(0, 0, 1)`, so applying
`K` never changes the third (depth) coordinate. -/
theorem Cal3_S2.K_mulVec_two (c : Cal3_S2) (v : Vec3) : c.K.mulVec v 2 = v 2 := by
  simp [Cal3_S2.K, Matrix.mulVec, dotProduct, Fin.sum_univ_three]

theorem flatMap_const_length {α β : Type} (l : List α) (f : α → List β) (k : ℕ)
    (h : ∀ a ∈ l, (f a).length = k) : (l.flatMap f).length = l.length * k := by
  induction l with
  | nil => simp
  | cons a t ih =>
    have ht : ∀ x ∈ t, (f x).length = k := fun x hx => h x (by simp [hx])
    simp [List.flatMap_cons, h a (by simp), ih ht, Nat.succ_mul, Nat.add_comm]

theorem quadricLoop1_length {α : Type} (m n : ℕ) (g : ℕ → ℕ → α) :
    (quadricLoop1 m n g).length = m * (n - 1) := by
  rw [quadricLoop1, flatMap_const_length _ _ (n - 1) (by simp), List.length_range]

theorem quadricLoop2_length {α : Type} (m n : ℕ) (g : ℕ → ℕ → α) :
    (quadricLoop2 m n g).length = (m - 1) * n := by
  rw [quadricLoop2, flatMap_const_length _ _ (m - 1) (by simp), List.length_range,
    Nat.mul_comm]

theorem quadricSegments_length {α : Type} (m n : ℕ) (g : ℕ → ℕ → α) :
    (quadricSegments m n g).length = m * (n - 1) + (m - 1) * n := by
  simp [quadricSegments, quadricLoop1_length, quadricLoop2_length]

/-- The corner list of `bounds_3D`, flattened: 8 corners in x-major,
then y, then z order. -/
theorem boxCorners_eq (b : AlignedBox3) :
    boxCorners b =
      [![b.xmin, b.ymin, b.zmin], ![b.xmin, b.ymin, b.zmax],
       ![b.xmin, b.ymax, b.zmin], ![b.xmin, b.ymax, b.zmax],
       ![b.xmax, b.ymin, b.zmin], ![b.xmax, b.ymin, b.zmax],
       ![b.xmax, b.ymax, b.zmin], ![b.xmax, b.ymax, b.zmax]] := rfl

/-! ## C3: the local-frame surface sample grid -/

/-- C3: for every quadric and resolution `theta_points, phi_points ≥ 2` the
sampler produces a `theta_points × phi_points` grid whose `(i, j)` entry is
`(rx·cos uᵢ·sin vⱼ, ry·sin uᵢ·sin vⱼ, rz·cos vⱼ)` with
`uᵢ = 2π·i/(theta_points − 1)` — the `theta_points` evenly spaced values over
`[0, 2π]` inclusive — and `vⱼ = π·j/(phi_points − 1)` likewise over `[0, π]`. -/
theorem C3_sample_grid (quadric : ConstrainedDualQuadric) (theta_points phi_points : ℕ)
    (ht : 2 ≤ theta_points) (hp : 2 ≤ phi_points) :
    (sampleGrid quadric theta_points phi_points).length = theta_points ∧
    (∀ row ∈ sampleGrid quadric theta_points phi_points, row.length = phi_points) ∧
    ∀ i j : ℕ, i < theta_points → j < phi_points →
      samplePoint quadric theta_points phi_points i j =
        ![quadric.radii 0 * Real.cos (2 * π * i / (theta_points - 1)) *
            Real.sin (π * j / (phi_points - 1)),
          quadric.radii 1 * Real.sin (2 * π * i / (theta_points - 1)) *
            Real.sin (π * j / (phi_points - 1)),
          quadric.radii 2 * Real.cos (π * j / (phi_points - 1))] := by
  refine ⟨by simp [sampleGrid], ?_, ?_⟩
  · intro row hrow
    simp only [sampleGrid, List.mem_map] at hrow
    obtain ⟨i, -, rfl⟩ := hrow
    simp
  · intro i j hi hj
    have hθ : ((theta_points - 1 : ℕ) : ℝ) = (theta_points : ℝ) - 1 := by
      push_cast [Nat.cast_sub (by omega : 1 ≤ theta_points)]; ring
    have hφ : ((phi_points - 1 : ℕ) : ℝ) = (phi_points : ℝ) - 1 := by
      push_cast [Nat.cast_sub (by omega : 1 ≤ phi_points)]; ring
    unfold samplePoint linspace
    rw [if_neg (by omega), if_neg (by omega), hθ, hφ]
    funext k
    fin_cases k <;> simp <;> ring_nf

/-- Witness for C3 at `theta_points = phi_points = 2` and a concrete quadric. -/
theorem C3_sample_grid_witness :
    (sampleGrid ⟨⟨1, ![0, 0, 0]⟩, ![1, 2, 3]⟩ 2 2).length = 2 ∧
    (∀ row ∈ sampleGrid ⟨⟨1, ![0, 0, 0]⟩, ![1, 2, 3]⟩ 2 2, row.length = 2) ∧
    ∀ i j : ℕ, i < 2 → j < 2 →
      samplePoint ⟨⟨1, ![0, 0, 0]⟩, ![1, 2, 3]⟩ 2 2 i j =
        ![(![1, 2, 3] : Vec3) 0 * Real.cos (2 * π * i / (2 - 1)) * Real.sin (π * j / (2 - 1)),
          (![1, 2, 3] : Vec3) 1 * Real.sin (2 * π * i / (2 - 1)) * Real.sin (π * j / (2 - 1)),
          (![1, 2, 3] : Vec3) 2 * Real.cos (π * j / (2 - 1))] :=
  C3_sample_grid ⟨⟨1, ![0, 0, 0]⟩, ![1, 2, 3]⟩ 2 2 (by norm_num) (by norm_num)

/-! ## C2: the world transform of the sample points -/

theorem Rz90_mul_transpose : Rz90 * Rz90.transpose = 1 := by
  ext i j
  fin_cases i <;> fin_cases j <;>
    simp [Rz90, Matrix.mul_apply, Fin.sum_univ_three, Matrix.one_apply,
      Matrix.transpose_apply, Matrix.vecHead, Matrix.vecTail, Function.comp]

/-- C2 counterexample: for the unit quadric whose pose rotation is the 90°
z-rotation `Rz90` with translation 0, the grid entry `(0, 1)` of a `2 × 3`
resolution is the local sample point `p = (1, 0, 0)` (`u = 0`, `v = π/2`);
the code's warp (`p.dot(inv R)` plus `t`) yields `(0, 1, 0)`, while the
matrix `R⁻¹` applied to `p` (plus `t`) yields `(0, −1, 0)`: the claimed
formula `world = R⁻¹ p + t` fails on this sample point. -/
theorem C2_counterexample :
    samplePoint ⟨⟨Rz90, ![0, 0, 0]⟩, ![1, 1, 1]⟩ 2 3 0 1 = ![1, 0, 0] ∧
    warpPoint ⟨⟨Rz90, ![0, 0, 0]⟩, ![1, 1, 1]⟩ ![1, 0, 0] ≠
      Rz90⁻¹.mulVec ![1, 0, 0] + ![0, 0, 0] := by
  constructor
  · have hu : linspace 0 (2 * π) 2 0 = 0 := by
      rw [linspace, if_neg (by norm_num)]
      norm_num
    have hv : linspace 0 π 3 1 = π / 2 := by
      rw [linspace, if_neg (by norm_num)]
      norm_num
    simp only [samplePoint, hu, hv]
    funext k
    fin_cases k <;>
      simp [Real.sin_pi_div_two, Real.cos_pi_div_two, Real.sin_zero, Real.cos_zero]
  · have hinv : Rz90⁻¹ = Rz90.transpose := Matrix.inv_eq_right_inv Rz90_mul_transpose
    intro h
    simp only [warpPoint] at h
    rw [hinv] at h
    have h1 := congrFun h 1
    simp [Rz90, Matrix.vecMul, Matrix.mulVec, dotProduct, Fin.sum_univ_three,
      Pi.add_apply, Matrix.transpose_apply, Matrix.vecHead, Matrix.vecTail] at h1
    norm_num at h1

/-- C2 (amended): each local-frame sample point `p` is mapped to
`p ᵥ* R⁻¹ + t` — the row-vector–matrix product with the inverse rotation,
then the translation.  Because the pose rotation is orthogonal
(`R * Rᵀ = 1`), this equals the *forward* rotation applied to `p`,
`R *ᵥ p + t`, not `R⁻¹ *ᵥ p + t`. -/
theorem C2_world_transform (quadric : ConstrainedDualQuadric) (p : Vec3)
    (horth : quadric.pose.rot * quadric.pose.rot.transpose = 1) :
    warpPoint quadric p = Matrix.vecMul p (quadric.pose.rot)⁻¹ + quadric.pose.t ∧
    warpPoint quadric p = quadric.pose.rot.mulVec p + quadric.pose.t := by
  refine ⟨rfl, ?_⟩
  rw [warpPoint, Matrix.inv_eq_right_inv horth, Matrix.vecMul_transpose]

/-- Witness for C2 (amended) at the concrete orthogonal rotation `Rz90`. -/
theorem C2_world_transform_witness :
    warpPoint ⟨⟨Rz90, ![4, 5, 6]⟩, ![1, 1, 1]⟩ ![1, 2, 3] =
      Matrix.vecMul ![1, 2, 3] Rz90⁻¹ + ![4, 5, 6] ∧
    warpPoint ⟨⟨Rz90, ![4, 5, 6]⟩, ![1, 1, 1]⟩ ![1, 2, 3] =
      Rz90.mulVec ![1, 2, 3] + ![4, 5, 6] :=
  C2_world_transform ⟨⟨Rz90, ![4, 5, 6]⟩, ![1, 1, 1]⟩ ![1, 2, 3] Rz90_mul_transpose

/-! ## C4: wireframe segment structure and count -/

/-- C4: on an `m × n` projected grid, `CV2Drawing.quadric` issues exactly
`m·(n−1)` line segments along one grid axis and `(m−1)·n` along the other,
`m·(n−1) + (m−1)·n` in total, and every drawn segment joins two
index-adjacent grid entries — there is no wrap-around edge from the last row
or column back to the first; if `m = 1` or `n = 1` the count along that axis
is zero. -/
theorem C4_wireframe_segments {α : Type} (m n : ℕ) (g : ℕ → ℕ → α) :
    quadricSegments m n g = quadricLoop1 m n g ++ quadricLoop2 m n g ∧
    (quadricLoop1 m n g).length = m * (n - 1) ∧
    (quadricLoop2 m n g).length = (m - 1) * n ∧
    (quadricSegments m n g).length = m * (n - 1) + (m - 1) * n ∧
    ∀ s ∈ quadricSegments m n g,
      (∃ i j, i < m ∧ j + 1 < n ∧ s = (g i j, g i (j + 1))) ∨
      (∃ i j, i + 1 < m ∧ j < n ∧ s = (g i j, g (i + 1) j)) := by
  refine ⟨rfl, quadricLoop1_length m n g, quadricLoop2_length m n g,
    quadricSegments_length m n g, ?_⟩
  intro s hs
  rcases List.mem_append.1 hs with h | h
  · left
    simp only [quadricLoop1, List.mem_flatMap, List.mem_map, List.mem_range] at h
    obtain ⟨i, hi, j, hj, heq⟩ := h
    exact ⟨i, j, hi, by omega, heq.symm⟩
  · right
    simp only [quadricLoop2, List.mem_flatMap, List.mem_map, List.mem_range] at h
    obtain ⟨j, hj, i, hi, heq⟩ := h
    exact ⟨i, j, by omega, hj, heq.symm⟩

/-! ## C10: nearest-integer rounding of the projected grid -/

/-- C10: `CV2Drawing.quadric` converts the projected grid with
`np.round(...).astype(int)` before any line is drawn: `npRound` is a
nearest-integer rounding (always within 1/2, ties going to the even
neighbour — numpy's rounding, not truncation), a finite grid entry
`(x, y)` is cast to `(npRound x, npRound y)`, and the `cv2.line` trace is
generated from the `roundCast`-ed projected grid. -/
theorem C10_rounded_endpoints :
    (∀ x : ℝ, |x - (npRound x : ℝ)| ≤ 1 / 2) ∧
    (∀ x : ℝ, Int.fract x = 1 / 2 → Even (npRound x)) ∧
    (∀ x y : ℝ, roundCast (some (x, y)) = some (npRound x, npRound y)) ∧
    (∀ quadric pose calibration, quadricTrace quadric pose calibration =
      quadricSegments 10 10 fun i j =>
        roundCast (generate_uv_spherical quadric pose calibration 10 10 i j)) := by
  refine ⟨?_, ?_, fun x y => rfl, fun quadric pose calibration => rfl⟩
  · intro x
    unfold npRound
    have hfr : x - (⌊x⌋ : ℝ) = Int.fract x := rfl
    have h0 := Int.fract_nonneg x
    have h1 := Int.fract_lt_one x
    split_ifs with h
    · rw [hfr, abs_of_nonneg h0]
      rcases h with h | h
      · exact le_of_lt h
      · exact le_of_eq h.1
    · push_neg at h
      have h2 : (1 : ℝ) / 2 ≤ Int.fract x := h.1
      have h3 : x - ((⌊x⌋ : ℤ) + 1 : ℤ) = Int.fract x - 1 := by
        rw [← hfr]; push_cast; ring
      rw [h3, abs_of_nonpos (by linarith)]
      linarith
  · intro x hx
    unfold npRound
    split_ifs with h
    · rcases h with h | h
      · rw [hx] at h; linarith
      · exact h.2
    · push_neg at h
      exact Int.even_add_one.2 (h.2 hx)

/-! ## bounds_3D helper lemmas -/

/-- If some corner is behind the camera, `bounds_3D` returns at the behind
test: the cv2 call trace is empty. -/
theorem bounds_3D_behind_skip (box3D : AlignedBox3) (pose : Pose3) (calibration : Cal3_S2)
    (h : ∃ p ∈ boxCorners box3D, (Pose3.between pose ⟨1, p⟩).t 2 < 0) :
    CV2Drawing.bounds_3D box3D pose calibration = [] := by
  simp only [CV2Drawing.bounds_3D]
  rw [if_pos h]

/-- If some corner projects to a non-finite point, `bounds_3D` draws
nothing (it returns at one of its two guards). -/
theorem bounds_3D_none_skip (box3D : AlignedBox3) (pose : Pose3) (calibration : Cal3_S2)
    (h : ∃ p ∈ boxCorners box3D, projectPoint pose calibration p = none) :
    CV2Drawing.bounds_3D box3D pose calibration = [] := by
  simp only [CV2Drawing.bounds_3D]
  split_ifs with h1 h2
  · rfl
  · rfl
  · exfalso
    obtain ⟨p, hp, hnone⟩ := h
    exact h2 ⟨projectPoint pose calibration p, List.mem_map.2 ⟨p, hp, rfl⟩, hnone⟩

/-- The camera-frame depth tested by the behind test is exactly the third
homogeneous coordinate of the projection (the perspective divisor): the
calibration matrix leaves the depth row untouched. -/
theorem transformToImage_depth (pose : Pose3) (calibration : Cal3_S2) (p : Vec3) :
    transformToImage pose calibration p 2 = (Pose3.between pose ⟨1, p⟩).t 2 := by
  rw [transformToImage, Cal3_S2.K_mulVec_two]
  rfl

/-- A corner projects to a non-finite (`inf`/`nan`) point exactly when its
camera-frame depth is zero. -/
theorem projectPoint_eq_none_iff (pose : Pose3) (calibration : Cal3_S2) (p : Vec3) :
    projectPoint pose calibration p = none ↔ (Pose3.between pose ⟨1, p⟩).t 2 = 0 := by
  rw [projectPoint, perspectiveDivide, ← transformToImage_depth pose calibration p]
  split_ifs with h
  · simp [h]
  · simp [h]

/-! ## C5: all-or-nothing behind-camera culling -/

/-- C5: if any of the 8 corners of the 3-D box has strictly negative
camera-frame depth, `CV2Drawing.bounds_3D` returns without issuing any
drawing call — the image buffer is left unchanged. -/
theorem C5_behind_camera_skip (box3D : AlignedBox3) (pose : Pose3) (calibration : Cal3_S2)
    (h : ∃ p ∈ boxCorners box3D, (Pose3.between pose ⟨1, p⟩).t 2 < 0) :
    CV2Drawing.bounds_3D box3D pose calibration = [] :=
  bounds_3D_behind_skip box3D pose calibration h

/-- Witness for C5: a box entirely at negative depth in front of the identity
camera draws nothing. -/
theorem C5_behind_camera_skip_witness :
    CV2Drawing.bounds_3D ⟨0, 1, 0, 1, -2, -1⟩ poseId calUnit = [] :=
  C5_behind_camera_skip ⟨0, 1, 0, 1, -2, -1⟩ poseId calUnit
    ⟨![0, 0, -2], by rw [boxCorners_eq]; exact List.mem_cons_self _ _,
     by norm_num [Pose3.between, poseId, Matrix.transpose_one, Matrix.one_mulVec]⟩

/-! ## C6: non-finite projected corners abort the box draw -/

/-- C6: if any projected 2-D corner coordinate of the box is infinite or NaN
(a zero perspective divisor), `bounds_3D` returns before drawing any circle
or edge; nothing is raised, the trace is simply empty. -/
theorem C6_nonfinite_skip (box3D : AlignedBox3) (pose : Pose3) (calibration : Cal3_S2)
    (h : ∃ p ∈ boxCorners box3D, projectPoint pose calibration p = none) :
    CV2Drawing.bounds_3D box3D pose calibration = [] :=
  bounds_3D_none_skip box3D pose calibration h

/-- Witness for C6: a box with one corner exactly in the camera plane of the
identity camera projects that corner to a non-finite point and draws nothing. -/
theorem C6_nonfinite_skip_witness :
    CV2Drawing.bounds_3D ⟨0, 1, 0, 1, 0, 1⟩ poseId calUnit = [] :=
  C6_nonfinite_skip ⟨0, 1, 0, 1, 0, 1⟩ poseId calUnit
    ⟨![0, 0, 0], by rw [boxCorners_eq]; exact List.mem_cons_self _ _,
     (projectPoint_eq_none_iff poseId calUnit ![0, 0, 0]).2
       (by norm_num [Pose3.between, poseId, Matrix.transpose_one, Matrix.one_mulVec])⟩

/-! ## C8: zero-depth corners pass the strict test but never draw -/

/-- C8: the behind test compares with strict `< 0`, so a corner at exactly
zero camera-frame depth is not culled by it; that corner's perspective divide
is by zero, the projected coordinates are non-finite, and the NaN/Inf guard
still returns with the trace empty — no drawing ever happens with a
zero-depth corner. -/
theorem C8_zero_depth_never_draws (box3D : AlignedBox3) (pose : Pose3)
    (calibration : Cal3_S2)
    (h1 : ∀ p ∈ boxCorners box3D, 0 ≤ (Pose3.between pose ⟨1, p⟩).t 2)
    (h2 : ∃ p ∈ boxCorners box3D, (Pose3.between pose ⟨1, p⟩).t 2 = 0) :
    ¬(∃ p ∈ boxCorners box3D, (Pose3.between pose ⟨1, p⟩).t 2 < 0) ∧
    (∃ p ∈ boxCorners box3D, projectPoint pose calibration p = none) ∧
    CV2Drawing.bounds_3D box3D pose calibration = [] := by
  obtain ⟨p, hp, hz⟩ := h2
  have hnone : projectPoint pose calibration p = none :=
    (projectPoint_eq_none_iff pose calibration p).2 hz
  refine ⟨?_, ⟨p, hp, hnone⟩, bounds_3D_none_skip box3D pose calibration ⟨p, hp, hnone⟩⟩
  rintro ⟨q, hq, hlt⟩
  exact absurd hlt (not_lt.2 (h1 q hq))

/-- Witness for C8: a box with corners at depth 0 and 1 before the identity
camera — no corner is culled by the strict test, yet nothing is drawn. -/
theorem C8_zero_depth_never_draws_witness :
    ¬(∃ p ∈ boxCorners ⟨0, 1, 0, 1, 0, 1⟩, (Pose3.between poseId ⟨1, p⟩).t 2 < 0) ∧
    (∃ p ∈ boxCorners ⟨0, 1, 0, 1, 0, 1⟩, projectPoint poseId calUnit p = none) ∧
    CV2Drawing.bounds_3D ⟨0, 1, 0, 1, 0, 1⟩ poseId calUnit = [] :=
  C8_zero_depth_never_draws ⟨0, 1, 0, 1, 0, 1⟩ poseId calUnit
    (by
      intro p hp
      rw [boxCorners_eq] at hp
      fin_cases hp <;>
        norm_num [Pose3.between, poseId, Matrix.transpose_one, Matrix.one_mulVec])
    ⟨![0, 0, 0], by rw [boxCorners_eq]; exact List.mem_cons_self _ _,
     by norm_num [Pose3.between, poseId, Matrix.transpose_one, Matrix.one_mulVec]⟩

/-! ## C7: the 12-edge box wireframe -/

theorem filter_isLine_map_circle {β : Type} (l : List β) (f : β → Option (ℤ × ℤ)) :
    ((l.map fun b => DrawCmd.circle (f b)).filter fun c => c.isLine) = [] := by
  induction l with
  | nil => rfl
  | cons a t ih => simp [List.filter_cons, DrawCmd.isLine, ih]

theorem filter_isLine_map_line {β : Type} (l : List β) (f g : β → Option (ℤ × ℤ)) :
    ((l.map fun b => DrawCmd.line (f b) (g b)).filter fun c => c.isLine) =
      l.map fun b => DrawCmd.line (f b) (g b) := by
  induction l with
  | nil => rfl
  | cons a t ih => simp [List.filter_cons, DrawCmd.isLine, ih]

/-- C7: when no corner is behind the camera and all 8 projected corners are
finite, `bounds_3D` draws a circle at each of the 8 corners — enumerated from
the bounds in x-major, then y, then z order — followed by exactly the 12
edges of the fixed index table
`(0,1),(1,3),(3,2),(2,0),(4,5),(5,7),(7,6),(6,4),(2,6),(1,5),(0,4),(3,7)`. -/
theorem C7_box_wireframe (box3D : AlignedBox3) (pose : Pose3) (calibration : Cal3_S2)
    (h1 : ∀ p ∈ boxCorners box3D, 0 ≤ (Pose3.between pose ⟨1, p⟩).t 2)
    (h2 : ∀ p ∈ boxCorners box3D, projectPoint pose calibration p ≠ none) :
    boxCorners box3D =
      [![box3D.xmin, box3D.ymin, box3D.zmin], ![box3D.xmin, box3D.ymin, box3D.zmax],
       ![box3D.xmin, box3D.ymax, box3D.zmin], ![box3D.xmin, box3D.ymax, box3D.zmax],
       ![box3D.xmax, box3D.ymin, box3D.zmin], ![box3D.xmax, box3D.ymin, box3D.zmax],
       ![box3D.xmax, box3D.ymax, box3D.zmin], ![box3D.xmax, box3D.ymax, box3D.zmax]] ∧
    boxEdgeIndices =
      [(0, 1), (1, 3), (3, 2), (2, 0), (4, 5), (5, 7), (7, 6), (6, 4),
       (2, 6), (1, 5), (0, 4), (3, 7)] ∧
    CV2Drawing.bounds_3D box3D pose calibration =
      ((boxCorners box3D).map fun p =>
        DrawCmd.circle (truncCast (projectPoint pose calibration p))) ++
        (boxEdgeIndices.map fun e => DrawCmd.line
          (truncCast (((boxCorners box3D).map (projectPoint pose calibration)).getD e.1 none))
          (truncCast (((boxCorners box3D).map (projectPoint pose calibration)).getD e.2 none))) ∧
    ((CV2Drawing.bounds_3D box3D pose calibration).filter fun c => c.isLine).length = 12 := by
  have hmain : CV2Drawing.bounds_3D box3D pose calibration =
      ((boxCorners box3D).map fun p =>
        DrawCmd.circle (truncCast (projectPoint pose calibration p))) ++
        (boxEdgeIndices.map fun e => DrawCmd.line
          (truncCast (((boxCorners box3D).map (projectPoint pose calibration)).getD e.1 none))
          (truncCast (((boxCorners box3D).map (projectPoint pose calibration)).getD e.2 none))) := by
    simp only [CV2Drawing.bounds_3D]
    rw [if_neg, if_neg]
    · rw [List.map_map]
      rfl
    · rintro ⟨q, hq, rfl⟩
      obtain ⟨p, hp, hpq⟩ := List.mem_map.1 hq
      exact h2 p hp hpq
    · rintro ⟨p, hp, hlt⟩
      exact absurd hlt (not_lt.2 (h1 p hp))
  refine ⟨boxCorners_eq box3D, rfl, hmain, ?_⟩
  rw [hmain, List.filter_append, filter_isLine_map_circle, filter_isLine_map_line]
  simp [boxEdgeIndices]

/-- Witness for C7: the unit box at depths 1 to 2 before the identity camera
has all corners in front and finite, and draws the full wireframe. -/
theorem C7_box_wireframe_witness :
    boxCorners ⟨0, 1, 0, 1, 1, 2⟩ =
      [![0, 0, 1], ![0, 0, 2], ![0, 1, 1], ![0, 1, 2],
       ![1, 0, 1], ![1, 0, 2], ![1, 1, 1], ![1, 1, 2]] ∧
    boxEdgeIndices =
      [(0, 1), (1, 3), (3, 2), (2, 0), (4, 5), (5, 7), (7, 6), (6, 4),
       (2, 6), (1, 5), (0, 4), (3, 7)] ∧
    CV2Drawing.bounds_3D ⟨0, 1, 0, 1, 1, 2⟩ poseId calUnit =
      ((boxCorners ⟨0, 1, 0, 1, 1, 2⟩).map fun p =>
        DrawCmd.circle (truncCast (projectPoint poseId calUnit p))) ++
        (boxEdgeIndices.map fun e => DrawCmd.line
          (truncCast (((boxCorners ⟨0, 1, 0, 1, 1, 2⟩).map
            (projectPoint poseId calUnit)).getD e.1 none))
          (truncCast (((boxCorners ⟨0, 1, 0, 1, 1, 2⟩).map
            (projectPoint poseId calUnit)).getD e.2 none))) ∧
    ((CV2Drawing.bounds_3D ⟨0, 1, 0, 1, 1, 2⟩ poseId calUnit).filter
      fun c => c.isLine).length = 12 :=
  C7_box_wireframe ⟨0, 1, 0, 1, 1, 2⟩ poseId calUnit
    (by
      intro p hp
      rw [boxCorners_eq] at hp
      fin_cases hp <;>
        norm_num [Pose3.between, poseId, Matrix.transpose_one, Matrix.one_mulVec])
    (by
      intro p hp
      rw [boxCorners_eq] at hp
      rw [Ne, projectPoint_eq_none_iff]
      fin_cases hp <;>
        norm_num [Pose3.between, poseId, Matrix.transpose_one, Matrix.one_mulVec])

/-! ## C9: the alpha blend of CV2Drawing.quadric -/

/-- C9: when `alpha ≠ 1` the final buffer is the per-pixel blend
`alpha · (buffer with the wireframe drawn) + (1 − alpha) · (original buffer)`
— the drawn buffer being exactly what the same call with `alpha = 1`
produces; and when `alpha = 1` no copy or blend happens: the wireframe is
drawn directly into the buffer (the bare fold of the rasterizer over the
line-call trace, with the colour swapped rgb→bgr). -/
theorem C9_alpha_blend (lineF : LineRaster) (image : Img) (pose : Pose3)
    (quadric : ConstrainedDualQuadric) (calibration : Cal3_S2) (color : Color)
    (alpha : ℝ) (h : alpha ≠ 1) :
    (∀ p, CV2Drawing.quadric lineF image pose quadric calibration color alpha p =
      alpha * CV2Drawing.quadric lineF image pose quadric calibration color 1 p +
        (1 - alpha) * image p) ∧
    CV2Drawing.quadric lineF image pose quadric calibration color 1 =
      (quadricTrace quadric pose calibration).foldl
        (fun im s => lineF im s.1 s.2 (color.2.2, color.2.1, color.1)) image := by
  have hone : CV2Drawing.quadric lineF image pose quadric calibration color 1 =
      (quadricTrace quadric pose calibration).foldl
        (fun im s => lineF im s.1 s.2 (color.2.2, color.2.1, color.1)) image := by
    simp only [CV2Drawing.quadric]
    rw [if_neg (not_not_intro rfl)]
  refine ⟨?_, hone⟩
  intro p
  rw [hone]
  simp only [CV2Drawing.quadric]
  rw [if_pos h]
  simp only [addWeighted]
  ring

/-- Witness for C9 at `alpha = 1/2` with the pixel-bumping rasterizer. -/
theorem C9_alpha_blend_witness :
    (∀ p, CV2Drawing.quadric bumpLine zeroImg poseId quadricUnit calUnit (1, 0, 0) (1 / 2) p =
      1 / 2 * CV2Drawing.quadric bumpLine zeroImg poseId quadricUnit calUnit (1, 0, 0) 1 p +
        (1 - 1 / 2) * zeroImg p) ∧
    CV2Drawing.quadric bumpLine zeroImg poseId quadricUnit calUnit (1, 0, 0) 1 =
      (quadricTrace quadricUnit poseId calUnit).foldl
        (fun im s => bumpLine im s.1 s.2 (0, 0, 1)) zeroImg :=
  C9_alpha_blend bumpLine zeroImg poseId quadricUnit calUnit (1, 0, 0) (1 / 2) (by norm_num)

/-! ## C1: CV2Drawing.quadric has no NaN/Inf guard -/

theorem calUnit_K : calUnit.K = 1 := by
  ext i j
  fin_cases i <;> fin_cases j <;>
    simp [calUnit, Cal3_S2.K, Matrix.one_apply, Matrix.vecHead, Matrix.vecTail]

/-- The unit quadric at the origin does not move its sample points. -/
theorem warpPoint_quadricUnit (p : Vec3) : warpPoint quadricUnit p = p := by
  rw [warpPoint]
  simp [quadricUnit, poseId, inv_one, Matrix.vecMul_one]

/-- The `(0, 1)` sample of the 10×10 grid on the unit sphere has
z-coordinate `cos (π/9)`. -/
theorem samplePoint_z_01 : samplePoint quadricUnit 10 10 0 1 2 = Real.cos (π / 9) := by
  have harg : linspace 0 π 10 1 = π / 9 := by
    rw [linspace, if_neg (by norm_num)]
    norm_num
  simp only [samplePoint, harg]
  simp [quadricUnit]

/-- With the camera at `(0, 0, cos (π/9))`, the `(0, 1)` grid entry of the
unit quadric projects with a zero perspective divisor: a non-finite pixel. -/
theorem C1_proj_none : generate_uv_spherical quadricUnit camC1 calUnit 10 10 0 1 = none := by
  have hrot : camC1.rot = 1 := rfl
  have hz : transformToImage camC1 calUnit
      (warpPoint quadricUnit (samplePoint quadricUnit 10 10 0 1)) 2 = 0 := by
    rw [warpPoint_quadricUnit, transformToImage, Cal3_S2.K_mulVec_two, hrot,
      Matrix.transpose_one, Matrix.one_mulVec, Pi.sub_apply, samplePoint_z_01]
    norm_num [camC1]
  rw [generate_uv_spherical, projectPoint, perspectiveDivide, if_pos hz]

/-- Every `cv2.line` call of the pixel-bumping rasterizer adds one to every
pixel, so a fold over a trace adds the trace length. -/
theorem foldl_bumpLine (l : List (Option (ℤ × ℤ) × Option (ℤ × ℤ))) (im : Img)
    (c : Color) (p : ℤ × ℤ) :
    (l.foldl (fun im s => bumpLine im s.1 s.2 c) im) p = im p + l.length := by
  induction l generalizing im with
  | nil => simp
  | cons a t ih =>
    rw [List.foldl_cons, ih]
    simp [bumpLine]
    ring

/-- C1 counterexample: for the unit quadric at the origin, the identity
calibration, and the camera at `(0, 0, cos (π/9))`, the projection of grid
entry `(0, 1)` is non-finite (inf/NaN) — yet `CV2Drawing.quadric` does not
skip the draw: its `cv2.line` trace is non-empty, and with a rasterizer that
changes pixels the buffer is modified.  The claimed silent skip does not
exist in `quadric` (the guard lives only in `bounds_3D`). -/
theorem C1_counterexample :
    generate_uv_spherical quadricUnit camC1 calUnit 10 10 0 1 = none ∧
    quadricTrace quadricUnit camC1 calUnit ≠ [] ∧
    CV2Drawing.quadric bumpLine zeroImg camC1 quadricUnit calUnit (1, 0, 0) 1 ≠ zeroImg := by
  have hlen : (quadricTrace quadricUnit camC1 calUnit).length = 180 := by
    rw [quadricTrace, quadricSegments_length]
  refine ⟨C1_proj_none, ?_, ?_⟩
  · intro hnil
    rw [hnil] at hlen
    simp at hlen
  · intro h
    have hb := congrFun h ((0 : ℤ), (0 : ℤ))
    simp only [CV2Drawing.quadric] at hb
    rw [if_neg (not_not_intro rfl), foldl_bumpLine, hlen] at hb
    simp [zeroImg] at hb

/-- C1 (amended): `CV2Drawing.quadric` performs no finiteness check at all —
even when the projection produces a non-finite (inf/NaN) grid coordinate, no
skip happens: every `cv2.line` call of the two loops is still issued (all
180 of them for the hard-coded 10×10 grid). -/
theorem C1_no_nonfinite_guard (pose : Pose3) (quadric : ConstrainedDualQuadric)
    (calibration : Cal3_S2)
    (h : ∃ i < 10, ∃ j < 10,
      generate_uv_spherical quadric pose calibration 10 10 i j = none) :
    quadricTrace quadric pose calibration ≠ [] ∧
    (quadricTrace quadric pose calibration).length = 180 := by
  have hlen : (quadricTrace quadric pose calibration).length = 180 := by
    rw [quadricTrace, quadricSegments_length]
  exact ⟨fun hnil => by rw [hnil] at hlen; simp at hlen, hlen⟩

/-- Witness for C1 (amended), at the degenerate configuration of the
counterexample. -/
theorem C1_no_nonfinite_guard_witness :
    quadricTrace quadricUnit camC1 calUnit ≠ [] ∧
    (quadricTrace quadricUnit camC1 calUnit).length = 180 :=
  C1_no_nonfinite_guard camC1 quadricUnit calUnit
    ⟨0, by norm_num, 1, by norm_num, C1_proj_none⟩
